import Mathlib

/-!
Verification of the react-iframe-editor repository.

The backend (src/backend/server.js) manages at most one React dev-server
child process through a module-level handle `reactDevServer`; the frontend
(src/frontend) strips ANSI sequences from streamed logs, bounds the log
buffer, polls background edit jobs, maintains chat history, and builds
preview URLs.  Each source function is embedded as an executable Lean
definition below; theorems settle the specification claims.
-/

namespace IframeEditor

/-! ## Backend process lifecycle (src/backend/server.js)

The server keeps a single module-level variable `let reactDevServer = null`
(line 17).  We model the handle as an `Option Nat` (the pid of the spawned
child) and additionally track the runtime processes currently alive and
the close events still in flight, so that the one-live-process invariant
can be stated.  Signals are modelled as immediately effective (the C4
development treats the SIGTERM-ignoring case separately), but a dead
child's `close` event is delivered asynchronously, as in Node: the handler
installed at spawn time (server.js lines 107-110) runs `reactDevServer =
null` unconditionally when it eventually fires — even if the module-level
handle meanwhile points at a newer child. -/

/-- POSIX signals the server can send to a child process. -/
inductive Sig where
  | sigterm
  | sigkill
deriving DecidableEq, Repr

/-- State of the backend server: the `reactDevServer` handle (pid of the
child process if one is held), the list of runtime processes currently
alive, the pids of dead children whose `close` event has not yet been
delivered, a fresh-pid counter, and whether the project directory exists
on disk (`fs.existsSync(REACT_PROJECT_PATH)`). -/
structure SrvState where
  reactDevServer : Option Nat
  live : List Nat
  pendingClose : List Nat
  nextPid : Nat
  projectDirExists : Bool
deriving DecidableEq, Repr

/-- `const REACT_DEV_PORT = 3002` (server.js line 15). -/
def REACT_DEV_PORT : Nat := 3002

/-- `const devServerUrl = http://localhost:REACT_DEV_PORT` built by the
start handler (server.js line 239). -/
def devServerUrl : String := "http://localhost:" ++ toString REACT_DEV_PORT

/-- `startReactDevServer` (server.js lines 67-114): returns immediately if
the handle is non-null, otherwise spawns exactly one new child and stores
its handle. -/
def startReactDevServer (s : SrvState) : SrvState :=
  if s.reactDevServer.isSome then s
  else
    { s with
      reactDevServer := some s.nextPid
      live := s.nextPid :: s.live
      nextPid := s.nextPid + 1 }

/-- The list of signals `stopReactDevServer` (server.js lines 117-122)
sends: exactly one SIGTERM when a handle is held, nothing otherwise.
There is no timeout or SIGKILL escalation anywhere in the source. -/
def stopSignals (s : SrvState) : List Sig :=
  match s.reactDevServer with
  | some _ => [Sig.sigterm]
  | none => []

/-- `stopReactDevServer` (server.js lines 117-122): if a handle is held,
kill the child with SIGTERM and null the handle.  The killed child dies
(signal modelled as effective) and its `close` event becomes pending. -/
def stopReactDevServer (s : SrvState) : SrvState :=
  match s.reactDevServer with
  | some p =>
      { s with
        reactDevServer := none
        live := s.live.erase p
        pendingClose := p :: s.pendingClose }
  | none => s

/-- Environment event: a live child exits on its own; its `close` event
becomes pending. -/
def childDies (s : SrvState) (p : Nat) : SrvState :=
  { s with live := s.live.erase p, pendingClose := p :: s.pendingClose }

/-- The `close` handler installed on a spawned child (server.js lines
107-110): when the pending event for child `p` is delivered, the handler
runs `reactDevServer = null` unconditionally — it is not guarded by
whether the module-level handle still refers to `p`, so a stale close can
clobber the handle of a newer live child. -/
def onChildClose (s : SrvState) (p : Nat) : SrvState :=
  { s with reactDevServer := none, pendingClose := s.pendingClose.erase p }

/-- An HTTP response of the lifecycle endpoints: status code, `success`
field, and the `devServerUrl` field when present. -/
structure Resp where
  status : Nat
  success : Bool
  devUrl : Option String
deriving DecidableEq, Repr

/-- `POST /api/start-dev-server` handler (server.js lines 227-251): 400 and
no state change if the project directory does not exist, otherwise run
`startReactDevServer` and answer success with the constant preview URL. -/
def startDevServerHandler (s : SrvState) : SrvState × Resp :=
  if s.projectDirExists = false then
    (s, ⟨400, false, none⟩)
  else
    (startReactDevServer s, ⟨200, true, some devServerUrl⟩)

/-- `POST /api/stop-dev-server` handler (server.js lines 254-257). -/
def stopDevServerHandler (s : SrvState) : SrvState × Resp :=
  (stopReactDevServer s, ⟨200, true, none⟩)

/-- `POST /api/init-project` handler (server.js lines 142-224), restricted
to its effect on the lifecycle state: the project directory is (re)created;
the dev-server handle is not touched. -/
def initProjectHandler (s : SrvState) : SrvState × Resp :=
  ({ s with projectDirExists := true }, ⟨200, true, none⟩)

/-- One operation of the process lifecycle manager: project init, start,
stop, and the two halves of process exit (the child dying, and its `close`
event being delivered to the handler of server.js lines 107-110). -/
inductive Step : SrvState → SrvState → Prop where
  | init (s : SrvState) : Step s (initProjectHandler s).1
  | start (s : SrvState) : Step s (startDevServerHandler s).1
  | stop (s : SrvState) : Step s (stopDevServerHandler s).1
  | childDies (s : SrvState) (p : Nat) (h : p ∈ s.live) : Step s (childDies s p)
  | closeEvent (s : SrvState) (p : Nat) (h : p ∈ s.pendingClose) :
      Step s (onChildClose s p)

/-- Server boot state: no handle, no live child, no pending close event,
project dir absent. -/
def initState : SrvState := ⟨none, [], [], 0, false⟩

/-- States reachable from boot by lifecycle operations. -/
def Reachable (s : SrvState) : Prop :=
  Relation.ReflTransGen Step initState s

/-- C1: the at-most-one-live-process invariant fails on the code.  The
execution init; start (spawns child 0); stop (SIGTERM to 0, handle
nulled); start (spawns child 1); child 0's `close` event fires and its
handler unconditionally nulls the handle, orphaning live child 1; start
sees an empty handle and spawns child 2 — reaching a state with TWO live
runtime processes for the project. -/
theorem stale_close_double_spawn :
    Reachable ⟨some 2, [2, 1], [], 3, true⟩ ∧
    (⟨some 2, [2, 1], [], 3, true⟩ : SrvState).live.length = 2 ∧
    ¬ (⟨some 2, [2, 1], [], 3, true⟩ : SrvState).live.length ≤ 1 := by
  refine ⟨?_, rfl, by decide⟩
  have t1 : Reachable ⟨none, [], [], 0, true⟩ :=
    Relation.ReflTransGen.single (Step.init initState)
  have t2 : Reachable ⟨some 0, [0], [], 1, true⟩ :=
    t1.tail (Step.start ⟨none, [], [], 0, true⟩)
  have t3 : Reachable ⟨none, [], [0], 1, true⟩ :=
    t2.tail (Step.stop ⟨some 0, [0], [], 1, true⟩)
  have t4 : Reachable ⟨some 1, [1], [0], 2, true⟩ :=
    t3.tail (Step.start ⟨none, [], [0], 1, true⟩)
  have t5 : Reachable ⟨none, [1], [], 2, true⟩ :=
    t4.tail (Step.closeEvent ⟨some 1, [1], [0], 2, true⟩ 0 (by decide))
  exact t5.tail (Step.start ⟨none, [1], [], 2, true⟩)

/-- C2: when the runtime process is already starting or running (the handle
is non-empty) and the project is initialized, a start request changes no
state (spawns nothing) and answers success with the constant preview URL;
every successful start answers that same URL, so a second start returns the
same preview URL as the first. -/
theorem start_twice_same_url (s : SrvState) (hp : s.projectDirExists = true)
    (hs : s.reactDevServer.isSome) :
    startDevServerHandler s = (s, ⟨200, true, some devServerUrl⟩) ∧
    (∀ t : SrvState, t.projectDirExists = true →
      (startDevServerHandler t).2 = ⟨200, true, some devServerUrl⟩) := by
  constructor
  · simp [startDevServerHandler, hp, startReactDevServer, hs]
  · intro t ht
    simp [startDevServerHandler, ht]

theorem start_twice_same_url_witness :
    ((⟨some 7, [7], [], 8, true⟩ : SrvState).projectDirExists = true ∧
      (⟨some 7, [7], [], 8, true⟩ : SrvState).reactDevServer.isSome) ∧
    (startDevServerHandler ⟨some 7, [7], [], 8, true⟩ =
        (⟨some 7, [7], [], 8, true⟩, ⟨200, true, some devServerUrl⟩) ∧
      (∀ t : SrvState, t.projectDirExists = true →
        (startDevServerHandler t).2 = ⟨200, true, some devServerUrl⟩)) :=
  ⟨⟨rfl, rfl⟩, start_twice_same_url ⟨some 7, [7], [], 8, true⟩ rfl rfl⟩

/-- C3: a start request on a never-initialized project (no project
directory) answers HTTP 400 without success and leaves the manager state
entirely unchanged — in particular no process is spawned. -/
theorem start_uninitialized_400 (s : SrvState) (h : s.projectDirExists = false) :
    startDevServerHandler s = (s, ⟨400, false, none⟩) := by
  simp [startDevServerHandler, h]

theorem start_uninitialized_400_witness :
    (initState.projectDirExists = false) ∧
    startDevServerHandler initState = (initState, ⟨400, false, none⟩) :=
  ⟨rfl, start_uninitialized_400 initState rfl⟩

/-! ### Stop and shutdown signalling (C4, C5)

`aliveAfter` is an environment model of a POSIX child process: SIGKILL
cannot be ignored, SIGTERM can be (a process is free to install a handler
for it); a process that receives no signal stays alive. -/

/-- Environment model: is a child still alive after receiving `sigs`, given
whether it ignores SIGTERM. -/
def aliveAfter (ignoresTerm : Bool) (sigs : List Sig) : Bool :=
  if sigs.contains Sig.sigkill then false
  else if sigs.contains Sig.sigterm then ignoresTerm
  else true

/-- C4 counterexample: stopping a live process sends exactly one SIGTERM
and never a SIGKILL, so a child that ignores SIGTERM survives `stop`
forever — there is no bounded-timeout forced kill in the code. -/
theorem stop_never_force_kills :
    stopSignals ⟨some 0, [0], [], 1, true⟩ = [Sig.sigterm] ∧
    aliveAfter true (stopSignals ⟨some 0, [0], [], 1, true⟩) = true := by
  constructor
  · rfl
  · rfl

/-- C4 amended: `stop` on a live process sends the single graceful SIGTERM,
clears the handle, and terminates any child that does not ignore SIGTERM;
no forced kill is ever issued. -/
theorem stop_sends_single_sigterm (s : SrvState) (p : Nat)
    (h : s.reactDevServer = some p) :
    stopSignals s = [Sig.sigterm] ∧
    (stopReactDevServer s).reactDevServer = none ∧
    aliveAfter false (stopSignals s) = false ∧
    Sig.sigkill ∉ stopSignals s := by
  refine ⟨?_, ?_, ?_, ?_⟩
  · simp [stopSignals, h]
  · simp [stopReactDevServer, h]
  · simp [stopSignals, h, aliveAfter]
  · simp [stopSignals, h]

theorem stop_sends_single_sigterm_witness :
    ((⟨some 3, [3], [], 4, true⟩ : SrvState).reactDevServer = some 3) ∧
    (stopSignals ⟨some 3, [3], [], 4, true⟩ = [Sig.sigterm] ∧
      (stopReactDevServer ⟨some 3, [3], [], 4, true⟩).reactDevServer = none ∧
      aliveAfter false (stopSignals ⟨some 3, [3], [], 4, true⟩) = false ∧
      Sig.sigkill ∉ stopSignals ⟨some 3, [3], [], 4, true⟩) :=
  ⟨rfl, stop_sends_single_sigterm ⟨some 3, [3], [], 4, true⟩ 3 rfl⟩

/-- Paths by which the control process can be terminated. -/
inductive TermPath where
  | sigint
  | sigterm
  | sighup
deriving DecidableEq, Repr

/-- The only termination path with a registered handler is SIGINT
(`process.on('SIGINT', ...)`, server.js lines 266-270); the handler runs
`stopReactDevServer` before `process.exit(0)`. -/
def handledTermPaths : List TermPath := [TermPath.sigint]

/-- Signals delivered to the child when the control process terminates via
`t`: the SIGINT handler forwards `stopSignals`; every other path is
unhandled and sends nothing. -/
def shutdownSignals (t : TermPath) (s : SrvState) : List Sig :=
  if handledTermPaths.contains t then stopSignals s else []

/-- C5 counterexample: when the parent is terminated by SIGTERM while a
child is live, the child receives no signal at all — the code registers a
handler only for SIGINT, so not every termination path signals the child. -/
theorem shutdown_sigterm_orphans_child :
    shutdownSignals TermPath.sigterm ⟨some 0, [0], [], 1, true⟩ = [] := by
  rfl

/-- C5 amended: only the SIGINT path is handled; on SIGINT with a live
child, the child receives SIGTERM before the parent exits, while the
SIGTERM and SIGHUP paths deliver nothing. -/
theorem shutdown_only_sigint_signals (s : SrvState) (p : Nat)
    (h : s.reactDevServer = some p) :
    shutdownSignals TermPath.sigint s = [Sig.sigterm] ∧
    shutdownSignals TermPath.sigterm s = [] ∧
    shutdownSignals TermPath.sighup s = [] := by
  refine ⟨?_, ?_, ?_⟩
  · simp [shutdownSignals, handledTermPaths, stopSignals, h]
  · simp [shutdownSignals, handledTermPaths]
  · simp [shutdownSignals, handledTermPaths]

theorem shutdown_only_sigint_signals_witness :
    ((⟨some 5, [5], [], 6, true⟩ : SrvState).reactDevServer = some 5) ∧
    (shutdownSignals TermPath.sigint ⟨some 5, [5], [], 6, true⟩ = [Sig.sigterm] ∧
      shutdownSignals TermPath.sigterm ⟨some 5, [5], [], 6, true⟩ = [] ∧
      shutdownSignals TermPath.sighup ⟨some 5, [5], [], 6, true⟩ = []) :=
  ⟨rfl, shutdown_only_sigint_signals ⟨some 5, [5], [], 6, true⟩ 5 rfl⟩

/-! ## ANSI stripping (src/frontend/src/components/panel/PanelPreview.tsx)

`stripAnsi` (lines 24-29) is
`input.replace(/[\u001B\u009B][[\]()#;?]*(?:[0-9]{1,4}(?:;[0-9]{0,4})*)?[0-9A-ORZcf-nqry=><]/g, "")`.
We embed the regex as a backtracking matcher over `List Char` that follows
the engine's preference order exactly (greedy quantifiers, leftmost match,
single pass), and the global replace as a left-to-right scan removing each
match. -/

/-- The introducer class `[\u001B\u009B]`. -/
def isIntro (c : Char) : Bool := c = '\x1B' || c = '\u009B'

/-- The class `[[\]()#;?]`. -/
def isBracketCh (c : Char) : Bool :=
  c = '[' || c = ']' || c = '(' || c = ')' || c = '#' || c = ';' || c = '?'

/-- The class `[0-9]`. -/
def isDigitCh (c : Char) : Bool := '0' ≤ c && c ≤ '9'

/-- The final class `[0-9A-ORZcf-nqry=><]`. -/
def isFinalCh (c : Char) : Bool :=
  isDigitCh c || ('A' ≤ c && c ≤ 'O') || c = 'R' || c = 'Z' || c = 'c' ||
  ('f' ≤ c && c ≤ 'n') || c = 'q' || c = 'r' || c = 'y' ||
  c = '=' || c = '>' || c = '<'

/-- Remainders after consuming at most `n` digits, most-consumed first —
the greedy preference order of `[0-9]{0,n}`. -/
def digitsUpTo : Nat → List Char → List (List Char)
  | 0, l => [l]
  | _ + 1, [] => [[]]
  | n + 1, c :: rest =>
      if isDigitCh c then digitsUpTo n rest ++ [c :: rest] else [c :: rest]

/-- Remainders after `(?:;[0-9]{0,4})*`, in greedy preference order (more
iterations first, longer digit runs first).  `fuel` bounds the recursion;
every iteration consumes at least the semicolon, so `fuel = l.length` is
exact. -/
def starGroups : Nat → List Char → List (List Char)
  | 0, l => [l]
  | fuel + 1, l =>
      (match l with
       | c :: rest =>
           if c = ';' then (digitsUpTo 4 rest).flatMap (starGroups fuel) else []
       | [] => []) ++ [l]

/-- Remainders after `(?:[0-9]{1,4}(?:;[0-9]{0,4})*)?`, greedy order: the
group present (with greedy digit runs) first, absent last. -/
def paramPart (l : List Char) : List (List Char) :=
  (match l with
   | c :: rest =>
       if isDigitCh c then
         (digitsUpTo 3 rest).flatMap (fun r => starGroups r.length r)
       else []
   | [] => []) ++ [l]

/-- Remainders after `[[\]()#;?]*`, most-consumed first. -/
def bracketCandidates : List Char → List (List Char)
  | [] => [[]]
  | c :: rest =>
      if isBracketCh c then bracketCandidates rest ++ [c :: rest]
      else [c :: rest]

/-- Try the final class on each candidate remainder in preference order;
the first candidate whose head is in the final class wins (this is the
engine's backtracking over the earlier quantifier choices). -/
def tryFinal : List (List Char) → Option (List Char)
  | [] => none
  | r :: rs =>
      match r with
      | f :: r' => if isFinalCh f then some r' else tryFinal rs
      | [] => tryFinal rs

/-- Attempt the whole ANSI pattern at the head of `l`; on success return
the remainder after the matched segment. -/
def ansiMatch : List Char → Option (List Char)
  | [] => none
  | c :: rest =>
      if isIntro c then tryFinal ((bracketCandidates rest).flatMap paramPart)
      else none

/-- The global replace: scan left to right, removing each match and
continuing after it, keeping unmatched characters.  `fuel = l.length` is
exact since every step consumes at least one character. -/
def stripFuel : Nat → List Char → List Char
  | 0, l => l
  | _ + 1, [] => []
  | fuel + 1, c :: rest =>
      match ansiMatch (c :: rest) with
      | some r => stripFuel fuel r
      | none => c :: stripFuel fuel rest

/-- `stripAnsi` on character lists. -/
def stripAnsiL (l : List Char) : List Char := stripFuel l.length l

/-- `stripAnsi` (PanelPreview.tsx lines 24-29). -/
def stripAnsi (s : String) : String := ⟨stripAnsiL s.data⟩

/-- Does some position of `l` start an ANSI pattern match? -/
def hasAnsiMatch : List Char → Bool
  | [] => false
  | c :: rest => (ansiMatch (c :: rest)).isSome || hasAnsiMatch rest

example : stripAnsi "\x1B[31mred" = "red" := by decide
example : stripAnsi "plain text" = "plain text" := by decide
example : stripAnsi "\x1B[1;32mok\x1B[0m" = "ok" := by decide

theorem digitsUpTo_suffix : ∀ (n : Nat) (l r : List Char),
    r ∈ digitsUpTo n l → r <:+ l := by
  intro n
  induction n with
  | zero =>
      intro l r hr
      simp [digitsUpTo] at hr
      simp [hr]
  | succ n ih =>
      intro l r hr
      cases l with
      | nil =>
          simp [digitsUpTo] at hr
          simp [hr]
      | cons c rest =>
          by_cases hc : isDigitCh c = true
          · simp [digitsUpTo, hc] at hr
            rcases hr with hr | hr
            · exact (ih rest r hr).trans (List.suffix_cons c rest)
            · simp [hr]
          · simp [digitsUpTo, hc] at hr
            simp [hr]

theorem starGroups_suffix : ∀ (fuel : Nat) (l r : List Char),
    r ∈ starGroups fuel l → r <:+ l := by
  intro fuel
  induction fuel with
  | zero =>
      intro l r hr
      simp [starGroups] at hr
      simp [hr]
  | succ fuel ih =>
      intro l r hr
      cases l with
      | nil =>
          simp [starGroups] at hr
          simp [hr]
      | cons c rest =>
          by_cases hc : c = ';'
          · subst hc
            simp [starGroups] at hr
            rcases hr with ⟨d, hd, hrd⟩ | hr
            · exact ((ih d r hrd).trans (digitsUpTo_suffix 4 rest d hd)).trans
                (List.suffix_cons ';' rest)
            · rw [hr]
          · simp [starGroups, hc] at hr
            simp [hr]

theorem paramPart_suffix : ∀ (l r : List Char), r ∈ paramPart l → r <:+ l := by
  intro l r hr
  cases l with
  | nil =>
      simp [paramPart] at hr
      simp [hr]
  | cons c rest =>
      by_cases hc : isDigitCh c = true
      · simp [paramPart, hc] at hr
        rcases hr with ⟨d, hd, hrd⟩ | hr
        · exact ((starGroups_suffix d.length d r hrd).trans
            (digitsUpTo_suffix 3 rest d hd)).trans (List.suffix_cons c rest)
        · simp [hr]
      · simp [paramPart, hc] at hr
        simp [hr]

theorem bracketCandidates_suffix : ∀ (l r : List Char),
    r ∈ bracketCandidates l → r <:+ l := by
  intro l
  induction l with
  | nil =>
      intro r hr
      simp [bracketCandidates] at hr
      simp [hr]
  | cons c rest ih =>
      intro r hr
      by_cases hc : isBracketCh c = true
      · simp [bracketCandidates, hc] at hr
        rcases hr with hr | hr
        · exact (ih r hr).trans (List.suffix_cons c rest)
        · simp [hr]
      · simp [bracketCandidates, hc] at hr
        simp [hr]

theorem tryFinal_tail : ∀ (cs : List (List Char)) (r : List Char),
    tryFinal cs = some r → ∃ c, c ∈ cs ∧ ∃ f, c = f :: r := by
  intro cs
  induction cs with
  | nil => intro r hr; simp [tryFinal] at hr
  | cons c rs ih =>
      intro r hr
      cases c with
      | nil =>
          rcases ih r (by simpa [tryFinal] using hr) with ⟨d, hd, hf⟩
          exact ⟨d, List.mem_cons_of_mem _ hd, hf⟩
      | cons f r' =>
          by_cases hf : isFinalCh f = true
          · simp [tryFinal, hf] at hr
            exact ⟨f :: r', List.mem_cons_self _ _, f, by rw [hr]⟩
          · rcases ih r (by simpa [tryFinal, hf] using hr) with ⟨d, hd, hg⟩
            exact ⟨d, List.mem_cons_of_mem _ hd, hg⟩

theorem ansiMatch_suffix {c : Char} {rest r : List Char}
    (h : ansiMatch (c :: rest) = some r) : r <:+ rest := by
  by_cases hc : isIntro c = true
  · simp [ansiMatch, hc] at h
    rcases tryFinal_tail _ _ h with ⟨d, hd, f, hf⟩
    rcases List.mem_flatMap.mp hd with ⟨b, hb, hdb⟩
    have hsuf : d <:+ rest :=
      (paramPart_suffix b d hdb).trans (bracketCandidates_suffix rest b hb)
    have : r <:+ d := by
      rw [hf]
      exact ⟨[f], rfl⟩
    exact this.trans hsuf
  · simp [ansiMatch, hc] at h

theorem stripFuel_sublist : ∀ (fuel : Nat) (l : List Char),
    (stripFuel fuel l).Sublist l := by
  intro fuel
  induction fuel with
  | zero => intro l; simp [stripFuel]
  | succ fuel ih =>
      intro l
      cases l with
      | nil => simp [stripFuel]
      | cons c rest =>
          cases hm : ansiMatch (c :: rest) with
          | none =>
              simpa [stripFuel, hm] using List.Sublist.cons₂ c (ih rest)
          | some r =>
              have h1 : (stripFuel fuel r).Sublist r := ih r
              have h2 : r.Sublist rest := (ansiMatch_suffix hm).sublist
              simpa [stripFuel, hm] using List.Sublist.cons c (h1.trans h2)

theorem stripFuel_of_no_match : ∀ (fuel : Nat) (l : List Char),
    hasAnsiMatch l = false → stripFuel fuel l = l := by
  intro fuel
  induction fuel with
  | zero => intro l _; rfl
  | succ fuel ih =>
      intro l hl
      cases l with
      | nil => rfl
      | cons c rest =>
          simp [hasAnsiMatch] at hl
          simp [stripFuel, hl.1, ih rest hl.2]

/-- C6 counterexample: `stripAnsi` is a single pass, so deleting a match
can splice its surroundings into a fresh ANSI escape sequence: on the chunk
`ESC [ ESC [ 3 1 m m` the stored text is `ESC [ m` — itself a complete
ANSI escape sequence.  The stored text is not always free of ANSI
escape sequences. -/
theorem stripAnsi_output_can_contain_ansi :
    stripAnsi "\x1B[\x1B[31mm" = "\x1B[m" ∧
    hasAnsiMatch ("\x1B[m".data) = true := by
  constructor
  · decide
  · decide

/-- C6 amended: each delivered chunk has every match of the ANSI pattern of
one left-to-right scan removed — so the stored text is a subsequence of the
chunk, and a chunk containing no ANSI escape sequence is stored unchanged —
but a sequence spliced together by the removals can remain. -/
theorem stripAnsi_single_pass (s t : List Char) (h : hasAnsiMatch t = false) :
    (stripAnsiL s).Sublist s ∧ stripAnsiL t = t :=
  ⟨stripFuel_sublist s.length s, stripFuel_of_no_match t.length t h⟩

theorem stripAnsi_single_pass_witness :
    hasAnsiMatch ("hello".data) = false ∧
    ((stripAnsiL ("\x1B[31mred".data)).Sublist ("\x1B[31mred".data) ∧
      stripAnsiL ("hello".data) = "hello".data) :=
  ⟨by decide, stripAnsi_single_pass ("\x1B[31mred".data) ("hello".data) (by decide)⟩

/-! ## Log buffer (PanelPreview.tsx lines 52-65)

`setLogs` appends the new entry and, when the buffer exceeds 1000 entries,
keeps only the newest 1000: `next.length > 1000 ? next.slice(next.length -
1000) : next`.  `slice(k)` from index `k` to the end is `List.drop k`. -/

/-- One delivery into a subscriber's log buffer. -/
def pushLog {α : Type} (prev : List α) (e : α) : List α :=
  let next := prev ++ [e]
  if next.length > 1000 then next.drop (next.length - 1000) else next

theorem pushLog_drop {α : Type} (l : List α) (e : α) :
    pushLog (l.drop (l.length - 1000)) e = (l ++ [e]).drop ((l ++ [e]).length - 1000) := by
  unfold pushLog
  by_cases h : l.length < 1000
  · have h0 : l.length - 1000 = 0 := by omega
    have h1 : (l ++ [e]).length - 1000 = 0 := by simp; omega
    have hle : ¬ (l.drop (l.length - 1000) ++ [e]).length > 1000 := by
      simp; omega
    rw [if_neg hle, h0, h1]
    simp
  · have hlen : (l.drop (l.length - 1000)).length = 1000 := by simp; omega
    have hgt : (l.drop (l.length - 1000) ++ [e]).length > 1000 := by simp [hlen]
    have hdrop1 : (l.drop (l.length - 1000) ++ [e]).length - 1000 = 1 := by
      simp [hlen]
    rw [if_pos hgt, hdrop1,
      List.drop_append_of_le_length (by omega : 1 ≤ (l.drop (l.length - 1000)).length),
      List.drop_drop]
    have h2 : (l ++ [e]).length - 1000 = 1 + (l.length - 1000) := by simp; omega
    rw [h2, List.drop_append_of_le_length (by omega : 1 + (l.length - 1000) ≤ l.length),
      Nat.add_comm]

/-- C7: after any sequence of deliveries starting from the empty buffer,
the buffer is exactly the newest min(n, 1000) published entries in
publication order: at most 1000 entries are held, on overflow the oldest
are dropped, and the relative FIFO order of retained entries is intact. -/
theorem logs_bounded_drop_oldest {α : Type} (es : List α) :
    es.foldl pushLog [] = es.drop (es.length - 1000) ∧
    (es.foldl pushLog []).length ≤ 1000 := by
  have hmain : es.foldl pushLog [] = es.drop (es.length - 1000) := by
    induction es using List.reverseRecOn with
    | nil => simp
    | append_singleton l e ih =>
        rw [List.foldl_append, List.foldl_cons, List.foldl_nil, ih, pushLog_drop]
  refine ⟨hmain, ?_⟩
  rw [hmain]
  simp
  omega

/-! ## Chat messages and the job polling loop
(src/frontend/src/components/Chat.tsx lines 351-394, and the embedded Chat
in src/frontend/src/components/Panel.tsx lines 277-323)

`pollJob` loops `for (let i = 0; i < 60; i++)`: fetch the job status;
break on a non-OK response; on `done` append the display text as an
assistant message and return; on `error` append an error message and
return; otherwise sleep 1500 ms and continue.  After the 60 attempts the
loop falls off the end without appending anything. -/

/-- A chat message role (`'user' | 'assistant' | 'system' | 'error'`). -/
inductive Role where
  | user
  | assistant
  | system
  | error
deriving DecidableEq, Repr

/-- A chat message. -/
structure Message where
  role : Role
  content : String
deriving DecidableEq, Repr

/-- One `GET /chat/jobs/jobId` response as the poll loop sees it: a non-OK
HTTP response, or an OK body with its `status`, optional `display` text and
optional error message. -/
inductive PollResp where
  | httpError : PollResp
  | ok (status : String) (display : Option String) (errMsg : Option String) : PollResp
deriving DecidableEq, Repr

/-- How a run of the polling loop ends. -/
inductive PollOutcome where
  | done
  | errored
  | httpAbort
  | exhausted
deriving DecidableEq, Repr

/-- A run of the polling loop: how many status requests it made, total
milliseconds slept between polls, the chat messages it appended, and how it
ended. -/
structure PollRun where
  requests : Nat
  sleptMs : Nat
  appended : List Message
  outcome : PollOutcome
deriving DecidableEq, Repr

/-- The fallback error text of the poll loop. -/
def jobErrorDefault : String := "작업 중 오류가 발생했습니다."

/-- Messages appended on `done`: the display text as an assistant message
when present (`if (jd?.display) addMessage(...)`). -/
def doneAppends (display : Option String) : List Message :=
  match display with
  | some d => [⟨Role.assistant, d⟩]
  | none => []

/-- The message appended on `error`. -/
def errAppends (errMsg : Option String) : List Message :=
  [⟨Role.error, "⚠️ " ++ errMsg.getD jobErrorDefault⟩]

/-- The body of `pollJob` from iteration `i` with `fuel` iterations left
(`fuel = 60 - i`; the source bound is 60). -/
def pollJobAux (resps : Nat → PollResp) : Nat → Nat → PollRun
  | _, 0 => ⟨0, 0, [], PollOutcome.exhausted⟩
  | i, fuel + 1 =>
      match resps i with
      | PollResp.httpError => ⟨1, 0, [], PollOutcome.httpAbort⟩
      | PollResp.ok status display errMsg =>
          if status = "done" then
            ⟨1, 0, doneAppends display, PollOutcome.done⟩
          else if status = "error" then
            ⟨1, 0, errAppends errMsg, PollOutcome.errored⟩
          else
            let rest := pollJobAux resps (i + 1) fuel
            ⟨rest.requests + 1, rest.sleptMs + 1500, rest.appended, rest.outcome⟩

/-- `pollJob` (Chat.tsx lines 351-394): up to 60 iterations. -/
def pollJob (resps : Nat → PollResp) : PollRun := pollJobAux resps 0 60

/-- A response that lets the loop continue: HTTP OK and a status that is
neither `done` nor `error`. -/
def nonTerm : PollResp → Bool
  | PollResp.httpError => false
  | PollResp.ok status _ _ => !(status == "done") && !(status == "error")

/-- An OK response with terminal status `done`. -/
def isDoneResp : PollResp → Bool
  | PollResp.ok status _ _ => status == "done"
  | PollResp.httpError => false

/-- An OK response with terminal status `error`. -/
def isErrResp : PollResp → Bool
  | PollResp.ok status _ _ => status == "error"
  | PollResp.httpError => false

theorem pollJobAux_step_http {resps : Nat → PollResp} {i : Nat} (fuel : Nat)
    (h : resps i = PollResp.httpError) :
    pollJobAux resps i (fuel + 1) = ⟨1, 0, [], PollOutcome.httpAbort⟩ := by
  rw [pollJobAux, h]

theorem pollJobAux_step_done {resps : Nat → PollResp} {i : Nat} {d e : Option String}
    (fuel : Nat) (h : resps i = PollResp.ok "done" d e) :
    pollJobAux resps i (fuel + 1) = ⟨1, 0, doneAppends d, PollOutcome.done⟩ := by
  rw [pollJobAux, h]
  simp

theorem pollJobAux_step_err {resps : Nat → PollResp} {i : Nat} {d e : Option String}
    (fuel : Nat) (h : resps i = PollResp.ok "error" d e) :
    pollJobAux resps i (fuel + 1) = ⟨1, 0, errAppends e, PollOutcome.errored⟩ := by
  rw [pollJobAux, h]
  simp

theorem pollJobAux_step_next {resps : Nat → PollResp} {i : Nat} {s : String}
    {d e : Option String} (fuel : Nat) (h : resps i = PollResp.ok s d e)
    (hd : s ≠ "done") (he : s ≠ "error") :
    pollJobAux resps i (fuel + 1) =
      ⟨(pollJobAux resps (i + 1) fuel).requests + 1,
       (pollJobAux resps (i + 1) fuel).sleptMs + 1500,
       (pollJobAux resps (i + 1) fuel).appended,
       (pollJobAux resps (i + 1) fuel).outcome⟩ := by
  rw [pollJobAux, h]
  simp [hd, he]

theorem pollJobAux_step_nonterm {resps : Nat → PollResp} {i : Nat} (fuel : Nat)
    (h : nonTerm (resps i) = true) :
    pollJobAux resps i (fuel + 1) =
      ⟨(pollJobAux resps (i + 1) fuel).requests + 1,
       (pollJobAux resps (i + 1) fuel).sleptMs + 1500,
       (pollJobAux resps (i + 1) fuel).appended,
       (pollJobAux resps (i + 1) fuel).outcome⟩ := by
  cases hres : resps i with
  | httpError => rw [hres] at h; simp [nonTerm] at h
  | ok s d e =>
      rw [hres] at h
      simp [nonTerm] at h
      exact pollJobAux_step_next fuel hres h.1 h.2

theorem pollJobAux_skip (resps : Nat → PollResp) :
    ∀ (k i fuel : Nat), k ≤ fuel →
    (∀ j, j < k → nonTerm (resps (i + j)) = true) →
    (pollJobAux resps i fuel).requests =
        (pollJobAux resps (i + k) (fuel - k)).requests + k ∧
    (pollJobAux resps i fuel).appended =
        (pollJobAux resps (i + k) (fuel - k)).appended ∧
    (pollJobAux resps i fuel).outcome =
        (pollJobAux resps (i + k) (fuel - k)).outcome := by
  intro k
  induction k with
  | zero => intro i fuel _ _; simp
  | succ k ih =>
      intro i fuel hk hnt
      cases fuel with
      | zero => omega
      | succ f =>
          have h0 : nonTerm (resps i) = true := by
            have := hnt 0 (by omega)
            simpa using this
          have hstep := pollJobAux_step_nonterm f h0
          have hnt' : ∀ j, j < k → nonTerm (resps (i + 1 + j)) = true := by
            intro j hj
            have harg : i + 1 + j = i + (j + 1) := by omega
            rw [harg]
            exact hnt (j + 1) (by omega)
          rcases ih (i + 1) f (by omega) hnt' with ⟨h1, h2, h3⟩
          have harg : i + 1 + k = i + (k + 1) := by omega
          have hfuel : f - k = f + 1 - (k + 1) := by omega
          rw [harg, hfuel] at h1 h2 h3
          rw [hstep]
          exact ⟨by simp [h1]; omega, by simpa using h2, by simpa using h3⟩

theorem pollJobAux_bounds (resps : Nat → PollResp) :
    ∀ (fuel i : Nat),
    (pollJobAux resps i fuel).requests ≤ fuel ∧
    (pollJobAux resps i fuel).sleptMs ≤ 1500 * fuel ∧
    ((pollJobAux resps i fuel).outcome = PollOutcome.exhausted →
      (pollJobAux resps i fuel).appended = []) := by
  intro fuel
  induction fuel with
  | zero => intro i; exact ⟨Nat.le_refl 0, Nat.le_refl 0, fun _ => rfl⟩
  | succ fuel ih =>
      intro i
      cases hres : resps i with
      | httpError =>
          rw [pollJobAux_step_http fuel hres]
          exact ⟨by show (1 : Nat) ≤ fuel + 1; omega,
            by show (0 : Nat) ≤ 1500 * (fuel + 1); omega,
            by intro h; simp at h⟩
      | ok s d e =>
          by_cases hd : s = "done"
          · subst hd
            rw [pollJobAux_step_done fuel hres]
            exact ⟨by show (1 : Nat) ≤ fuel + 1; omega,
              by show (0 : Nat) ≤ 1500 * (fuel + 1); omega,
              by intro h; simp at h⟩
          · by_cases he : s = "error"
            · subst he
              rw [pollJobAux_step_err fuel hres]
              exact ⟨by show (1 : Nat) ≤ fuel + 1; omega,
                by show (0 : Nat) ≤ 1500 * (fuel + 1); omega,
                by intro h; simp at h⟩
            · rw [pollJobAux_step_next fuel hres hd he]
              rcases ih (i + 1) with ⟨h1, h2, h3⟩
              exact ⟨by simp; omega, by simp; omega,
                fun h => by simp; exact h3 (by simpa using h)⟩

theorem pollJobAux_all_nonterm (resps : Nat → PollResp)
    (h : ∀ j, nonTerm (resps j) = true) :
    ∀ (fuel i : Nat),
    pollJobAux resps i fuel = ⟨fuel, 1500 * fuel, [], PollOutcome.exhausted⟩ := by
  intro fuel
  induction fuel with
  | zero => intro i; simp [pollJobAux]
  | succ fuel ih =>
      intro i
      rw [pollJobAux_step_nonterm fuel (h i), ih (i + 1)]
      refine congrArg₂ (fun a b => PollRun.mk a b [] PollOutcome.exhausted) rfl ?_
      ring

theorem pollJobAux_assistant_only_done (resps : Nat → PollResp) :
    ∀ (fuel i : Nat) (m : Message),
    m ∈ (pollJobAux resps i fuel).appended → m.role = Role.assistant →
    (pollJobAux resps i fuel).outcome = PollOutcome.done := by
  intro fuel
  induction fuel with
  | zero => intro i m hm _; simp [pollJobAux] at hm
  | succ fuel ih =>
      intro i m hm hr
      cases hres : resps i with
      | httpError => rw [pollJobAux_step_http fuel hres] at hm; simp at hm
      | ok s d e =>
          by_cases hd : s = "done"
          · subst hd
            rw [pollJobAux_step_done fuel hres]
          · by_cases he : s = "error"
            · subst he
              rw [pollJobAux_step_err fuel hres] at hm
              simp [errAppends] at hm
              rw [hm] at hr
              simp at hr
            · rw [pollJobAux_step_next fuel hres hd he] at hm ⊢
              exact ih (i + 1) m (by simpa using hm) hr

/-- C8 counterexample: when the job never turns terminal the loop makes its
60 requests, sleeps 1500 ms after each, and then gives up appending nothing
at all — no timeout message is surfaced to the user. -/
theorem pollJob_exhausts_silently :
    pollJob (fun _ => PollResp.ok "running" none none) =
      ⟨60, 90000, [], PollOutcome.exhausted⟩ := by
  exact pollJobAux_all_nonterm (fun _ => PollResp.ok "running" none none)
    (fun _ => rfl) 60 0

/-- C8 amended: the poll loop makes at most 60 status requests at a fixed
1500 ms interval, stops as soon as a terminal status (`done` or `error`) is
observed, and if the job is still not terminal after the attempt budget it
gives up silently — no timeout message is surfaced to the user. -/
theorem pollJob_bounded_stops_on_terminal
    (resps rerr rexh : Nat → PollResp) (k m : Nat)
    (hk : k < 60) (hm : m < 60)
    (hkn : ∀ j, j < k → nonTerm (resps j) = true)
    (hkd : isDoneResp (resps k) = true)
    (hmn : ∀ j, j < m → nonTerm (rerr j) = true)
    (hme : isErrResp (rerr m) = true)
    (hex : ∀ j, nonTerm (rexh j) = true) :
    ((pollJob resps).outcome = PollOutcome.done ∧ (pollJob resps).requests = k + 1) ∧
    ((pollJob rerr).outcome = PollOutcome.errored ∧ (pollJob rerr).requests = m + 1) ∧
    (∀ g : Nat → PollResp,
      (pollJob g).requests ≤ 60 ∧ (pollJob g).sleptMs ≤ 1500 * 60) ∧
    ((pollJob rexh).outcome = PollOutcome.exhausted ∧ (pollJob rexh).appended = []) := by
  refine ⟨?_, ?_, ?_, ?_⟩
  · rcases pollJobAux_skip resps k 0 60 (by omega)
      (by intro j hj; simpa using hkn j hj) with ⟨hreq, _, hout⟩
    have h60 : 60 - k = (60 - k - 1) + 1 := by omega
    cases hres : resps k with
    | httpError => rw [hres] at hkd; simp [isDoneResp] at hkd
    | ok s d e =>
        rw [hres] at hkd
        simp [isDoneResp] at hkd
        subst hkd
        have hres0 : resps (0 + k) = PollResp.ok "done" d e := by simpa using hres
        have hinner : pollJobAux resps (0 + k) (60 - k) =
            ⟨1, 0, doneAppends d, PollOutcome.done⟩ := by
          rw [h60]
          exact pollJobAux_step_done _ hres0
        unfold pollJob
        rw [hinner] at hreq hout
        exact ⟨hout, by simp at hreq; omega⟩
  · rcases pollJobAux_skip rerr m 0 60 (by omega)
      (by intro j hj; simpa using hmn j hj) with ⟨hreq, _, hout⟩
    have h60 : 60 - m = (60 - m - 1) + 1 := by omega
    cases hres : rerr m with
    | httpError => rw [hres] at hme; simp [isErrResp] at hme
    | ok s d e =>
        rw [hres] at hme
        simp [isErrResp] at hme
        subst hme
        have hres0 : rerr (0 + m) = PollResp.ok "error" d e := by simpa using hres
        have hinner : pollJobAux rerr (0 + m) (60 - m) =
            ⟨1, 0, errAppends e, PollOutcome.errored⟩ := by
          rw [h60]
          exact pollJobAux_step_err _ hres0
        unfold pollJob
        rw [hinner] at hreq hout
        exact ⟨hout, by simp at hreq; omega⟩
  · intro g
    rcases pollJobAux_bounds g 60 0 with ⟨h1, h2, _⟩
    exact ⟨h1, h2⟩
  · rw [pollJob, pollJobAux_all_nonterm rexh hex 60 0]
    exact ⟨rfl, rfl⟩

theorem pollJob_bounded_stops_on_terminal_witness :
    ((0 : Nat) < 60 ∧
      isDoneResp ((fun _ => PollResp.ok "done" (some "d") none) 0) = true ∧
      isErrResp ((fun _ => PollResp.ok "error" none none) 0) = true ∧
      (∀ j : Nat, nonTerm ((fun _ => PollResp.ok "running" none none) j) = true)) ∧
    (((pollJob fun _ => PollResp.ok "done" (some "d") none).outcome = PollOutcome.done ∧
        (pollJob fun _ => PollResp.ok "done" (some "d") none).requests = 0 + 1) ∧
      ((pollJob fun _ => PollResp.ok "error" none none).outcome = PollOutcome.errored ∧
        (pollJob fun _ => PollResp.ok "error" none none).requests = 0 + 1) ∧
      (∀ g : Nat → PollResp,
        (pollJob g).requests ≤ 60 ∧ (pollJob g).sleptMs ≤ 1500 * 60) ∧
      ((pollJob fun _ => PollResp.ok "running" none none).outcome = PollOutcome.exhausted ∧
        (pollJob fun _ => PollResp.ok "running" none none).appended = [])) :=
  ⟨⟨by omega, rfl, rfl, fun _ => rfl⟩,
    pollJob_bounded_stops_on_terminal
      (fun _ => PollResp.ok "done" (some "d") none)
      (fun _ => PollResp.ok "error" none none)
      (fun _ => PollResp.ok "running" none none)
      0 0 (by omega) (by omega)
      (fun j hj => absurd hj (Nat.not_lt_zero j)) rfl
      (fun j hj => absurd hj (Nat.not_lt_zero j)) rfl
      (fun _ => rfl)⟩

/-! ## Conversation history
(projectStore `addMessage`; `sendMessage` in Chat.tsx; the embedded Chat's
`setMessages` updater in Panel.tsx lines 165-177) -/

/-- The per-project state of the zustand project store, restricted to the
fields the chat-history operations read or write. -/
structure ProjectState where
  name : String
  chatHistory : List Message
  lastModified : Nat
deriving DecidableEq, Repr

/-- The project store: current project and the name-keyed project map. -/
structure StoreState where
  currentProject : Option ProjectState
  projects : List (String × ProjectState)
deriving DecidableEq, Repr

/-- JS object-spread update `{...state.projects, [name]: updated}`. -/
def upsert : List (String × ProjectState) → String → ProjectState →
    List (String × ProjectState)
  | [], k, v => [(k, v)]
  | (k', v') :: rest, k, v =>
      if k' = k then (k, v) :: rest else (k', v') :: upsert rest k v

/-- `addMessage` of the project store: no-op without a current project;
otherwise append the message to the current project's chat history, stamp
`lastModified`, and write the project back under its name. -/
def addMessage (now : Nat) (st : StoreState) (m : Message) : StoreState :=
  match st.currentProject with
  | none => st
  | some p =>
      let p' : ProjectState :=
        { p with chatHistory := p.chatHistory ++ [m], lastModified := now }
      ⟨some p', upsert st.projects p'.name p'⟩

/-- The fixed initial greeting of the embedded Chat (Panel.tsx). -/
def embeddedGreetingText : String :=
  "안녕하세요! 좌측 채팅창에서 질문을 보내면 우측 Code/Preview와 함께 작업을 도와드릴게요."

/-- The `setMessages` updater run by the embedded Chat's `sendMessage`
(Panel.tsx lines 165-177): if the history is exactly the initial greeting,
replace it with the user message; otherwise append the user message. -/
def embeddedAddUserMsg (prev : List Message) (userMsg : Message) : List Message :=
  match prev with
  | [m] =>
      if m.role = Role.assistant ∧ m.content = embeddedGreetingText then [userMsg]
      else [m] ++ [userMsg]
  | _ => prev ++ [userMsg]

/-- Is the history exactly the initial greeting? -/
def isGreetingOnly : List Message → Bool
  | [m] => decide (m.role = Role.assistant ∧ m.content = embeddedGreetingText)
  | _ => false

/-- Messages recorded at submission time for the chat response (Chat.tsx:
`if (data?.processingType !== "code_edit") addMessage({assistant,
content})`): a `code_edit` job records nothing until it is polled done. -/
def submitReplyMessages (processingType : Option String) (content : String) :
    List Message :=
  if processingType = some "code_edit" then []
  else [⟨Role.assistant, content⟩]

/-- C9 counterexample: the embedded Chat's first send replaces the initial
greeting with the user message, so the previous history is not a prefix of
the new one — a past entry is removed. -/
theorem embedded_chat_removes_greeting :
    embeddedAddUserMsg [⟨Role.assistant, embeddedGreetingText⟩] ⟨Role.user, "hi"⟩ =
      [⟨Role.user, "hi"⟩] ∧
    ¬ ([(⟨Role.assistant, embeddedGreetingText⟩ : Message)] <+:
        [(⟨Role.user, "hi"⟩ : Message)]) := by
  constructor
  · simp [embeddedAddUserMsg]
  · intro h
    rcases h with ⟨t, ht⟩
    simp at ht

/-- C9 amended: the store's `addMessage` and the store-backed Chat only
append (the old history is a prefix of the new one), and an asynchronous
job's assistant reply is appended only once the job polls `done`, not at
submission time; the one exception is the embedded Chat, which replaces the
initial greeting with the first user message — for any other history it
appends. -/
theorem chat_history_append_amended (now : Nat) (st : StoreState)
    (p : ProjectState) (m u : Message) (prev : List Message) (content : String)
    (hc : st.currentProject = some p) (hg : isGreetingOnly prev = false) :
    (addMessage now st m).currentProject =
        some ⟨p.name, p.chatHistory ++ [m], now⟩ ∧
    p.chatHistory <+: p.chatHistory ++ [m] ∧
    embeddedAddUserMsg prev u = prev ++ [u] ∧
    prev <+: embeddedAddUserMsg prev u ∧
    submitReplyMessages (some "code_edit") content = [] ∧
    (∀ (r : Nat → PollResp) (mm : Message), mm ∈ (pollJob r).appended →
      mm.role = Role.assistant → (pollJob r).outcome = PollOutcome.done) := by
  have hemb : embeddedAddUserMsg prev u = prev ++ [u] := by
    cases prev with
    | nil => rfl
    | cons a t =>
        cases t with
        | nil =>
            simp [isGreetingOnly] at hg
            simp [embeddedAddUserMsg]
            exact hg
        | cons b t2 => rfl
  refine ⟨?_, List.prefix_append _ _, hemb, ?_, ?_, ?_⟩
  · simp [addMessage, hc]
  · rw [hemb]
    exact List.prefix_append _ _
  · simp [submitReplyMessages]
  · intro r mm hm hr
    exact pollJobAux_assistant_only_done r 60 0 mm hm hr

theorem chat_history_append_amended_witness :
    ((⟨some ⟨"demo", [], 0⟩, []⟩ : StoreState).currentProject =
        some ⟨"demo", [], 0⟩ ∧
      isGreetingOnly [] = false) ∧
    ((addMessage 1 ⟨some ⟨"demo", [], 0⟩, []⟩ ⟨Role.user, "hello"⟩).currentProject =
        some ⟨"demo", [⟨Role.user, "hello"⟩], 1⟩ ∧
      ([] : List Message) <+: [] ++ [(⟨Role.user, "hello"⟩ : Message)] ∧
      embeddedAddUserMsg [] ⟨Role.user, "hi"⟩ = [] ++ [⟨Role.user, "hi"⟩] ∧
      ([] : List Message) <+: embeddedAddUserMsg [] ⟨Role.user, "hi"⟩ ∧
      submitReplyMessages (some "code_edit") "ok" = [] ∧
      (∀ (r : Nat → PollResp) (mm : Message), mm ∈ (pollJob r).appended →
        mm.role = Role.assistant → (pollJob r).outcome = PollOutcome.done)) :=
  ⟨⟨rfl, rfl⟩,
    chat_history_append_amended 1 ⟨some ⟨"demo", [], 0⟩, []⟩ ⟨"demo", [], 0⟩
      ⟨Role.user, "hello"⟩ ⟨Role.user, "hi"⟩ [] "ok" rfl rfl⟩

/-! ## Preview URL building (ReactEditor.tsx lines 96-102)

`buildPreviewUrl(baseUrl, path)`: empty string for a falsy base; otherwise
strip all trailing slashes from the base (`replace(/\/+$/, "")`), take
`(path || "/").trim()`, prepend `"/"` when the trimmed path does not start
with one, and concatenate. -/

/-- `baseUrl.replace(/\/+$/, "")`: remove every trailing slash. -/
def stripTrailingSlashes (s : String) : String :=
  ⟨(s.data.reverse.dropWhile (fun c => c == '/')).reverse⟩

/-- JS `path || "/"` where the path may be missing (`undefined`) or
empty — both falsy. -/
def jsOrSlash (path : Option String) : String :=
  match path with
  | none => "/"
  | some s => if s = "" then "/" else s

/-- `normalizedPath.startsWith("/")`. -/
def startsWithSlash (s : String) : Bool :=
  match s.data with
  | '/' :: _ => true
  | _ => false

/-- JS `String.prototype.trim`: remove leading and trailing whitespace. -/
def strTrim (s : String) : String :=
  ⟨((s.data.dropWhile Char.isWhitespace).reverse.dropWhile
      Char.isWhitespace).reverse⟩

/-- The normalized route path: `(path || "/").trim()` with `"/"` prepended
when missing. -/
def normPath (path : Option String) : String :=
  let t := strTrim (jsOrSlash path)
  if startsWithSlash t then t else "/" ++ t

/-- `buildPreviewUrl` (ReactEditor.tsx lines 96-102). -/
def buildPreviewUrl (baseUrl : String) (path : Option String) : String :=
  if baseUrl = "" then ""
  else stripTrailingSlashes baseUrl ++ normPath path

theorem string_data_append (a b : String) : (a ++ b).data = a.data ++ b.data := by
  cases a
  cases b
  rfl

theorem dropWhile_slash_head : ∀ (l : List Char) (c : Char),
    (l.dropWhile (fun x => x == '/')).head? = some c → (c == '/') = false := by
  intro l
  induction l with
  | nil => intro c hc; simp [List.dropWhile] at hc
  | cons a t ih =>
      intro c hc
      rw [List.dropWhile_cons] at hc
      by_cases ha : (a == '/') = true
      · rw [if_pos ha] at hc
        exact ih c hc
      · rw [if_neg ha] at hc
        simp at hc
        subst hc
        simpa using ha

theorem takeWhile_slash_replicate (l : List Char) :
    l.takeWhile (fun x => x == '/') =
      List.replicate (l.takeWhile (fun x => x == '/')).length '/' := by
  apply List.eq_replicate_of_mem
  intro b hb
  have := List.mem_takeWhile_imp hb
  simpa using this

/-- C10: `buildPreviewUrl` yields `""` for an empty base; otherwise it is
the base with all trailing slashes removed followed by the normalized
path, which always begins with `"/"`: a missing or empty path becomes
`"/"`, a trimmed path without a leading `"/"` gets one prepended, and a
trimmed path with a leading `"/"` is kept as is. -/
theorem buildPreviewUrl_spec (base : String) (p : Option String)
    (hb : base ≠ "") :
    (∀ q : Option String, buildPreviewUrl "" q = "") ∧
    buildPreviewUrl base p = stripTrailingSlashes base ++ normPath p ∧
    startsWithSlash (normPath p) = true ∧
    (∃ k : Nat,
      base.data = (stripTrailingSlashes base).data ++ List.replicate k '/') ∧
    (∀ c, (stripTrailingSlashes base).data.getLast? = some c → c ≠ '/') ∧
    (p = none ∨ p = some "" → normPath p = "/") ∧
    (∀ s, p = some s → startsWithSlash (strTrim s) = false →
      normPath p = "/" ++ strTrim s) ∧
    (∀ s, p = some s → s ≠ "" → startsWithSlash (strTrim s) = true →
      normPath p = strTrim s) := by
  refine ⟨?_, ?_, ?_, ?_, ?_, ?_, ?_, ?_⟩
  · intro q; simp [buildPreviewUrl]
  · simp [buildPreviewUrl, hb]
  · unfold normPath
    by_cases h : startsWithSlash (strTrim (jsOrSlash p)) = true
    · rw [if_pos h]
      exact h
    · rw [if_neg (by simpa using h)]
      rw [startsWithSlash, string_data_append]
      rfl
  · refine ⟨(base.data.reverse.takeWhile (fun c => c == '/')).length, ?_⟩
    conv_lhs => rw [← base.data.reverse_reverse,
      ← List.takeWhile_append_dropWhile (p := fun c : Char => c == '/')
        (l := base.data.reverse)]
    rw [List.reverse_append, stripTrailingSlashes]
    congr 1
    rw [takeWhile_slash_replicate base.data.reverse, List.reverse_replicate]
    simp
  · intro c hc
    rw [stripTrailingSlashes] at hc
    simp only [List.getLast?_reverse] at hc
    have := dropWhile_slash_head base.data.reverse c hc
    simpa using this
  · intro hp
    rcases hp with hp | hp <;> subst hp <;> decide
  · intro s hp hns
    subst hp
    by_cases hs : s = ""
    · subst hs; decide
    · unfold normPath
      rw [jsOrSlash, if_neg hs, if_neg (by simp [hns])]
  · intro s hp hs hsw
    subst hp
    unfold normPath
    rw [jsOrSlash, if_neg hs, if_pos hsw]

theorem buildPreviewUrl_spec_witness :
    ("http://localhost:3002/" ≠ "") ∧
    ((∀ q : Option String, buildPreviewUrl "" q = "") ∧
      buildPreviewUrl "http://localhost:3002/" (some "about") =
        stripTrailingSlashes "http://localhost:3002/" ++ normPath (some "about") ∧
      startsWithSlash (normPath (some "about")) = true ∧
      (∃ k : Nat,
        "http://localhost:3002/".data =
          (stripTrailingSlashes "http://localhost:3002/").data ++
            List.replicate k '/') ∧
      (∀ c, (stripTrailingSlashes "http://localhost:3002/").data.getLast? = some c →
        c ≠ '/') ∧
      (some "about" = none ∨ some "about" = some "" → normPath (some "about") = "/") ∧
      (∀ s, some "about" = some s → startsWithSlash (strTrim s) = false →
        normPath (some "about") = "/" ++ strTrim s) ∧
      (∀ s, some "about" = some s → s ≠ "" → startsWithSlash (strTrim s) = true →
        normPath (some "about") = strTrim s)) :=
  ⟨by decide, buildPreviewUrl_spec "http://localhost:3002/" (some "about") (by decide)⟩

end IframeEditor
